import Mathlib

/-!
Shallow embedding of `src/scripts/generate_model.py` (Mehr Guard ML model
training script): URL feature extraction, Shannon entropy, and a logistic
regression classifier (predict / fit / to_json), together with theorems
settling the specification claims about them.

Python strings are modelled as `List Char`, Python floats as `ℝ` (the ideal
reals; float rounding is out of scope of the claims).  Fallible numpy code is
modelled with `Option`: `none` stands for a raised exception.
-/

namespace GenerateModel

/-! ## String utilities mirroring the Python string methods used by the code -/

/-- Position of the first occurrence of `c` in `l`, or `l.length` when `c`
does not occur.  This is the value of the Python idiom
`l.find(c) if c in l else len(l)` used to compute `host_end`. -/
def findPos (c : Char) (l : List Char) : ℕ :=
  (l.takeWhile (fun x => x != c)).length

/-- Python `str.split(sep)` for a one-character separator: the list of chunks
between occurrences of `c`.  Always returns a non-empty list, as in Python. -/
def pySplit (c : Char) : List Char → List (List Char)
  | [] => [[]]
  | a :: rest =>
    let r := pySplit c rest
    if a = c then [] :: r else (a :: r.headD []) :: r.tail

/-- Whether `pat` occurs as a contiguous substring of `s` (Python `pat in s`
for non-empty `pat`). -/
def occursIn (pat : List Char) : List Char → Bool
  | [] => pat.isEmpty
  | c :: rest => pat.isPrefixOf (c :: rest) || occursIn pat rest

/-- One pass of Python `str.replace(pat, rep)`: scan left to right, replace
each non-overlapping occurrence of `pat`.  `fuel` bounds the recursion; the
callers pass `s.length`, which suffices because `pat` is non-empty so each
step consumes at least one character of `s`. -/
def pyReplaceFuel (pat rep : List Char) : ℕ → List Char → List Char
  | 0, s => s
  | _ + 1, [] => []
  | fuel + 1, c :: rest =>
    if pat.isPrefixOf (c :: rest) then
      rep ++ pyReplaceFuel pat rep fuel ((c :: rest).drop pat.length)
    else
      c :: pyReplaceFuel pat rep fuel rest

/-- Python `s.replace(pat, rep)` for the non-empty literal patterns used by
the script (`"https://"` and `"http://"`).  Replaces every non-overlapping
occurrence, left to right. -/
def pyReplace (s pat rep : List Char) : List Char :=
  if pat = [] then s else pyReplaceFuel pat rep s.length s

/-- Python `str.isdigit()` restricted to ASCII digits: non-empty and all
characters are digits. -/
def pyIsdigit (l : List Char) : Bool :=
  !l.isEmpty && l.all Char.isDigit

/-- One group `\d{1,3}` of the IPv4 regex: one to three ASCII digits. -/
def digitRun13 (p : List Char) : Bool :=
  decide (1 ≤ p.length) && decide (p.length ≤ 3) && p.all Char.isDigit

/-- Full anchored match of `\d{1,3}\.\d{1,3}\.\d{1,3}\.\d{1,3}` against `s`:
splitting on `'.'` yields exactly four groups of one to three digits. -/
def ipv4Core (s : List Char) : Bool :=
  (pySplit '.' s).length == 4 && (pySplit '.' s).all digitRun13

/-- Python `re.match(r"^\d{1,3}\.\d{1,3}\.\d{1,3}\.\d{1,3}$", s)` viewed as a
Bool: the pattern is anchored on both sides, and Python's `$` also matches
just before a single trailing newline. -/
def pyMatchIPv4 (s : List Char) : Bool :=
  ipv4Core s || (s.getLast? == some '\n' && ipv4Core s.dropLast)

/-! ## URL preprocessing (`extract_features`, lines 20–30 of the script) -/

/-- The literal `"https://"`. -/
def httpsLit : List Char := "https://".toList

/-- The literal `"http://"`. -/
def httpLit : List Char := "http://".toList

/-- `url.startswith("https://")`: the script's `protocol` is `"https"` iff
this holds. -/
def usesHttps (url : List Char) : Bool :=
  httpsLit.isPrefixOf url

/-- `clean_url = url.replace("https://", "").replace("http://", "")`:
every occurrence of either scheme literal is removed, not only a leading
one. -/
def cleanUrlOf (url : List Char) : List Char :=
  pyReplace (pyReplace url httpsLit []) httpLit []

/-- `host_end = min(find("/") or len, find("?") or len)` over `clean_url`. -/
def hostEndOf (url : List Char) : ℕ :=
  min (findPos '/' (cleanUrlOf url)) (findPos '?' (cleanUrlOf url))

/-- `host = clean_url[:host_end]`. -/
def hostOf (url : List Char) : List Char :=
  (cleanUrlOf url).take (hostEndOf url)

/-- `path_and_query = clean_url[host_end:]`. -/
def pathAndQueryOf (url : List Char) : List Char :=
  (cleanUrlOf url).drop (hostEndOf url)

/-- `path = path_and_query.split("?")[0] if "?" in path_and_query else
path_and_query`. -/
def pathOf (url : List Char) : List Char :=
  if (pathAndQueryOf url).contains '?' then
    (pySplit '?' (pathAndQueryOf url)).headD []
  else pathAndQueryOf url

/-! ## Shannon entropy (`calculate_entropy`, lines 87–102) -/

/-- `calculate_entropy`: Shannon entropy (base 2) of the character frequency
distribution.  The Python loop over `freq.values()` visits the count of each
distinct character once; iterating over `text.dedup` visits the same multiset
of counts (the iteration order does not affect the accumulated sum). -/
noncomputable def calculate_entropy (text : List Char) : ℝ :=
  if text = [] then 0
  else
    text.dedup.foldl
      (fun ent c =>
        ent - ((text.count c : ℝ) / (text.length : ℝ)) *
          Real.logb 2 ((text.count c : ℝ) / (text.length : ℝ)))
      0

/-! ## The fifteen features (`extract_features`, lines 32–84) -/

/-- Feature 0: `min(len(url) / 500.0, 1.0)`. -/
noncomputable def feature0 (url : List Char) : ℝ :=
  min ((url.length : ℝ) / 500) 1

/-- Feature 1: `min(len(host) / 100.0, 1.0)`. -/
noncomputable def feature1 (url : List Char) : ℝ :=
  min (((hostOf url).length : ℝ) / 100) 1

/-- Feature 2: `min(len(path) / 200.0, 1.0)`. -/
noncomputable def feature2 (url : List Char) : ℝ :=
  min (((pathOf url).length : ℝ) / 200) 1

/-- `subdomain_count = max(host.count(".") - 1, 0)` (Python ints). -/
def subdomainCount (url : List Char) : ℤ :=
  max (((hostOf url).count '.' : ℤ) - 1) 0

/-- Feature 3: `min(subdomain_count / 5.0, 1.0)`. -/
noncomputable def feature3 (url : List Char) : ℝ :=
  min ((subdomainCount url : ℝ) / 5) 1

/-- Feature 4: `1.0 if protocol == "https" else 0.0`. -/
noncomputable def feature4 (url : List Char) : ℝ :=
  if usesHttps url then 1 else 0

/-- `host.split(":")[0]`, the argument of the IPv4 regex match. -/
def ipCandidate (url : List Char) : List Char :=
  (pySplit ':' (hostOf url)).headD []

/-- Feature 5 condition: `re.match(ip_pattern, host.split(":")[0])`. -/
def isIPHost (url : List Char) : Bool :=
  pyMatchIPv4 (ipCandidate url)

/-- Feature 5: `1.0 if re.match(ip_pattern, host.split(":")[0]) else 0.0`. -/
noncomputable def feature5 (url : List Char) : ℝ :=
  if isIPHost url then 1 else 0

/-- Feature 6: `min(calculate_entropy(host) / 5.0, 1.0)`. -/
noncomputable def feature6 (url : List Char) : ℝ :=
  min (calculate_entropy (hostOf url) / 5) 1

/-- Feature 7: `min(calculate_entropy(path) / 5.0, 1.0)`. -/
noncomputable def feature7 (url : List Char) : ℝ :=
  min (calculate_entropy (pathOf url) / 5) 1

/-- `query_count = path_and_query.count("&") + (1 if "?" in path_and_query
else 0)`. -/
def queryCount (url : List Char) : ℕ :=
  (pathAndQueryOf url).count '&' +
    (if (pathAndQueryOf url).contains '?' then 1 else 0)

/-- Feature 8: `min(query_count / 10.0, 1.0)`. -/
noncomputable def feature8 (url : List Char) : ℝ :=
  min ((queryCount url : ℝ) / 10) 1

/-- Feature 9 condition: `"@" in url`. -/
def hasAt (url : List Char) : Bool :=
  url.contains '@'

/-- Feature 9: `1.0 if "@" in url else 0.0`. -/
noncomputable def feature9 (url : List Char) : ℝ :=
  if hasAt url then 1 else 0

/-- Feature 10: `min(url.count(".") / 10.0, 1.0)`. -/
noncomputable def feature10 (url : List Char) : ℝ :=
  min ((url.count '.' : ℝ) / 10) 1

/-- Feature 11: `min(url.count("-") / 10.0, 1.0)`. -/
noncomputable def feature11 (url : List Char) : ℝ :=
  min ((url.count '-' : ℝ) / 10) 1

/-- `host.split(":")[-1]`, the candidate port suffix. -/
def portCandidate (url : List Char) : List Char :=
  (pySplit ':' (hostOf url)).getLastD []

/-- Feature 12 condition: `":" in host and host.split(":")[-1].isdigit()`. -/
def hasPort (url : List Char) : Bool :=
  (hostOf url).contains ':' && pyIsdigit (portCandidate url)

/-- Feature 12: `1.0 if has_port else 0.0`. -/
noncomputable def feature12 (url : List Char) : ℝ :=
  if hasPort url then 1 else 0

/-- The fixed shortener set `{bit.ly, tinyurl.com, t.co, goo.gl, ow.ly}`. -/
def shortenerList : List (List Char) :=
  ["bit.ly".toList, "tinyurl.com".toList, "t.co".toList, "goo.gl".toList,
    "ow.ly".toList]

/-- Feature 13 condition: `any(s in host for s in shorteners)`. -/
def isShortener (url : List Char) : Bool :=
  shortenerList.any (fun s => occursIn s (hostOf url))

/-- Feature 13: `1.0 if any(s in host for s in shorteners) else 0.0`. -/
noncomputable def feature13 (url : List Char) : ℝ :=
  if isShortener url then 1 else 0

/-- The fixed suspicious TLD set `{tk, ml, ga, cf, gq, xyz, icu, top}`. -/
def suspiciousTlds : List (List Char) :=
  ["tk".toList, "ml".toList, "ga".toList, "cf".toList, "gq".toList,
    "xyz".toList, "icu".toList, "top".toList]

/-- `tld = host.split(".")[-1] if "." in host else ""`. -/
def tldOf (url : List Char) : List Char :=
  if (hostOf url).contains '.' then (pySplit '.' (hostOf url)).getLastD []
  else []

/-- Feature 14 condition: `tld in suspicious_tlds`. -/
def isSuspiciousTld (url : List Char) : Bool :=
  suspiciousTlds.contains (tldOf url)

/-- Feature 14: `1.0 if tld in suspicious_tlds else 0.0`. -/
noncomputable def feature14 (url : List Char) : ℝ :=
  if isSuspiciousTld url then 1 else 0

/-- `extract_features`: the 15-entry feature vector of a URL, in the fixed
index order of the script (lines 16–84). -/
noncomputable def extract_features (url : List Char) : List ℝ :=
  [feature0 url, feature1 url, feature2 url, feature3 url, feature4 url,
    feature5 url, feature6 url, feature7 url, feature8 url, feature9 url,
    feature10 url, feature11 url, feature12 url, feature13 url, feature14 url]

/-! ## Logistic regression (`sigmoid`, `LogisticRegressionModel`,
lines 105–146) -/

/-- `sigmoid(x) = 1.0 / (1.0 + np.exp(-x))`. -/
noncomputable def sigmoid (x : ℝ) : ℝ :=
  1 / (1 + Real.exp (-x))

/-- `np.dot` of two one-dimensional arrays.  Inside the script both arguments
always have equal length (numpy raises on a 1-d length mismatch; theorems
about `predict` therefore carry an equal-length hypothesis). -/
noncomputable def dotList (a b : List ℝ) : ℝ :=
  (List.zipWith (fun x y => x * y) a b).sum

/-- The mutable model state of class `LogisticRegressionModel`: a weight
vector and a scalar bias. -/
structure LogisticRegressionModel where
  weights : List ℝ
  bias : ℝ

/-- The default constructor state: `np.zeros(15)` weights, `0.0` bias. -/
noncomputable def initModel : LogisticRegressionModel :=
  ⟨List.replicate 15 0, 0⟩

/-- `predict(features) = sigmoid(np.dot(self.weights, features) + self.bias)`.
A pure function of the model state: it cannot change `weights` or `bias`. -/
noncomputable def predict (m : LogisticRegressionModel) (features : List ℝ) : ℝ :=
  sigmoid (dotList m.weights features + m.bias)

/-- Elementwise `a - b` with numpy's one-dimensional broadcasting: equal
lengths subtract pointwise, a length-1 operand is stretched, anything else
raises (`none`). -/
noncomputable def npSub (a b : List ℝ) : Option (List ℝ) :=
  if a.length = b.length then some (List.zipWith (fun x y => x - y) a b)
  else if b.length = 1 then some (a.map (fun x => x - b.headD 0))
  else if a.length = 1 then some (b.map (fun y => a.headD 0 - y))
  else none

/-- One iteration of the epoch loop of `fit` (lines 128–139):
`z = np.dot(X, w) + b`, `predictions = sigmoid(z)`,
`dw = (1/n) * np.dot(X.T, predictions - y)`,
`db = (1/n) * np.sum(predictions - y)`, `w -= lr*dw`, `b -= lr*db`.
`none` models a numpy exception: `predictions - y` failing to broadcast,
`np.dot(X.T, err)` with a mismatched inner dimension, or `w - lr*dw` with
mismatched lengths (the last two cannot occur on the calls `fit` makes). -/
noncomputable def fitStep (X : List (List ℝ)) (y : List ℝ) (lr : ℝ)
    (wb : List ℝ × ℝ) : Option (List ℝ × ℝ) :=
  let n := X.length
  let nf := (X.headD []).length
  let preds := X.map (fun row => sigmoid (dotList row wb.1 + wb.2))
  match npSub preds y with
  | none => none
  | some err =>
    if err.length = n ∧ wb.1.length = nf then
      let dw := (List.range nf).map
        (fun j => (1 / (n : ℝ)) *
          ((X.zip err).map (fun p => p.1.getD j 0 * p.2)).sum)
      let db := (1 / (n : ℝ)) * err.sum
      some (List.zipWith (fun w d => w - lr * d) wb.1 dw, wb.2 - lr * db)
    else none

/-- The `for _ in range(epochs)` loop of `fit`, threading the weight/bias
state through `fitStep`. -/
noncomputable def fitLoop (X : List (List ℝ)) (y : List ℝ) (lr : ℝ) :
    ℕ → List ℝ × ℝ → Option (List ℝ × ℝ)
  | 0, wb => some wb
  | e + 1, wb =>
    match fitStep X y lr wb with
    | none => none
    | some wb' => fitLoop X y lr e wb'

/-- `fit(X, y, epochs, lr)` (lines 122–139): unpack `n_samples, n_features =
X.shape`, reset the weights to `np.zeros(n_features)` and the bias to `0.0`,
then run the epoch loop; the final weight/bias pair is the mutated model
state.  `none` models a raised exception.  An empty row list is `none`:
`np.array([])` is one-dimensional, so the shape unpacking fails (and with at
least one epoch the `1 / n_samples` gradient scale would divide by zero).  A
ragged row list cannot form a two-dimensional numpy array at all. -/
noncomputable def fit (X : List (List ℝ)) (y : List ℝ) (epochs : ℕ) (lr : ℝ) :
    Option (List ℝ × ℝ) :=
  match X with
  | [] => none
  | r :: _ =>
    if X.all (fun row => row.length == r.length) then
      fitLoop X y lr epochs (List.replicate r.length 0, 0)
    else none

/-- The JSON export record of `to_json` (lines 141–146): exactly two fields,
`weights` and `bias`, in that order. -/
structure ModelJson where
  weights : List ℝ
  bias : ℝ

/-- `to_json`: `{"weights": self.weights.tolist(), "bias": float(self.bias)}`. -/
def to_json (m : LogisticRegressionModel) : ModelJson :=
  ⟨m.weights, m.bias⟩

/-- Re-reading an exported record: the external scorer reconstructs a model
from the `weights` and `bias` fields. -/
def modelOfJson (j : ModelJson) : LogisticRegressionModel :=
  ⟨j.weights, j.bias⟩

/-! ## Claim-side definitions, written from the words of the spec/claims to be
compared against the code-level definitions above. -/

/-- Modelled from the words of claim C2: strip at most one leading
`"https://"` or `"http://"` literal prefix (never both, everything else left
intact). -/
def claimStripScheme (url : List Char) : List Char :=
  if httpsLit.isPrefixOf url then url.drop httpsLit.length
  else if httpLit.isPrefixOf url then url.drop httpLit.length
  else url

/-- Modelled from the words of claim C6: the host with the part after the
last `':'` (a trailing `:port`) stripped; a host with no `':'` is left
unchanged. -/
def claimLastColonStripped (h : List Char) : List Char :=
  if h.contains ':' then ((h.reverse.dropWhile (fun c => c != ':')).drop 1).reverse
  else h

/-- Modelled from the amended claim C6: the part of the host before the
first `':'`. -/
def claimFirstColonPart (h : List Char) : List Char :=
  h.takeWhile (fun c => c != ':')

/-- Modelled from the words of claim C4, steps 1–6: one epoch of full-batch
gradient descent written with indexed sums.
`z_i = Σ_j X[i][j]·w[j] + b`, `predictions_i = sigmoid(z_i)`,
`error_i = predictions_i - y_i`, `dw_j = (1/n)·Σ_i X[i][j]·error_i`,
`db = (1/n)·Σ_i error_i`, `w_j -= lr·dw_j`, `b -= lr·db`. -/
noncomputable def specStep (X : List (List ℝ)) (y : List ℝ) (lr : ℝ)
    (wb : List ℝ × ℝ) : List ℝ × ℝ :=
  let n := X.length
  let err := fun i =>
    sigmoid ((∑ j in Finset.range 15, (X.getD i []).getD j 0 * wb.1.getD j 0)
      + wb.2) - y.getD i 0
  let dw := fun j =>
    (1 / (n : ℝ)) * ∑ i in Finset.range n, (X.getD i []).getD j 0 * err i
  let db := (1 / (n : ℝ)) * ∑ i in Finset.range n, err i
  ((List.range 15).map (fun j => wb.1.getD j 0 - lr * dw j), wb.2 - lr * db)

/-- Modelled from the words of claim C4: reset the weights to fifteen zeros
and the bias to zero, then perform exactly `epochs` iterations of
`specStep`. -/
noncomputable def specFit (X : List (List ℝ)) (y : List ℝ) (epochs : ℕ)
    (lr : ℝ) : List ℝ × ℝ :=
  (specStep X y lr)^[epochs] (List.replicate 15 0, 0)

/-! ## Helper lemmas -/

/-- A left fold that only subtracts accumulates the negated sum. -/
lemma foldl_sub_eq (g : Char → ℝ) (l : List Char) (a : ℝ) :
    l.foldl (fun e c => e - g c) a = a - (l.map g).sum := by
  induction l generalizing a with
  | nil => simp
  | cons c t ih => simp [List.foldl_cons, ih (a - g c)]; ring

/-- A list of nonpositive reals has a nonpositive sum. -/
lemma list_sum_nonpos (l : List ℝ) (h : ∀ x ∈ l, x ≤ 0) : l.sum ≤ 0 := by
  induction l with
  | nil => simp
  | cons a t ih =>
    simp only [List.sum_cons]
    have ha := h a (List.mem_cons_self a t)
    have ht := ih fun x hx => h x (List.mem_cons_of_mem a hx)
    linarith

/-- `calculate_entropy` as a negated sum over the distinct characters. -/
lemma calculate_entropy_eq (t : List Char) :
    calculate_entropy t =
      -((t.dedup.map (fun c =>
        ((t.count c : ℝ) / (t.length : ℝ)) *
          Real.logb 2 ((t.count c : ℝ) / (t.length : ℝ)))).sum) := by
  unfold calculate_entropy
  split
  · rename_i ht; subst ht; simp
  · rw [foldl_sub_eq]; ring

/-- Shannon entropy is nonnegative. -/
lemma calculate_entropy_nonneg (t : List Char) : 0 ≤ calculate_entropy t := by
  rw [calculate_entropy_eq, neg_nonneg]
  apply list_sum_nonpos
  intro x hx
  simp only [List.mem_map] at hx
  obtain ⟨c, hc, rfl⟩ := hx
  have ht : t ≠ [] := by
    rintro rfl; simp at hc
  have hlen : 0 < (t.length : ℝ) := by
    have := List.length_pos.mpr ht
    exact_mod_cast this
  have hp0 : 0 ≤ (t.count c : ℝ) / (t.length : ℝ) :=
    div_nonneg (by positivity) (le_of_lt hlen)
  have hp1 : (t.count c : ℝ) / (t.length : ℝ) ≤ 1 := by
    rw [div_le_one hlen]
    exact_mod_cast List.count_le_length c t
  have hlog : Real.logb 2 ((t.count c : ℝ) / (t.length : ℝ)) ≤ 0 :=
    Real.logb_nonpos (by norm_num) hp0 hp1
  exact mul_nonpos_iff.mpr (Or.inl ⟨hp0, hlog⟩)

/-- A one-sided clamp `min a 1` of a nonnegative value stays in `[0, 1]`. -/
lemma clamp01 {a : ℝ} (h : 0 ≤ a) : 0 ≤ min a 1 ∧ min a 1 ≤ 1 :=
  ⟨le_min h zero_le_one, min_le_right _ _⟩

/-- A 0/1 indicator stays in `[0, 1]`. -/
lemma indicator01 (b : Bool) :
    0 ≤ (if b = true then (1 : ℝ) else 0) ∧
      (if b = true then (1 : ℝ) else 0) ≤ 1 := by
  cases b <;> norm_num

/-! ## Claim C1 -/

/-- Claim C1: for every input string, including malformed strings and strings
without a scheme, `extract_features` returns a feature vector of exactly 15
entries, and every entry lies in the closed interval `[0, 1]`. -/
theorem extract_features_length_and_range (url : List Char) :
    (extract_features url).length = 15 ∧
      ∀ x ∈ extract_features url, 0 ≤ x ∧ x ≤ 1 := by
  refine ⟨rfl, ?_⟩
  intro x hx
  have hsub : (0 : ℝ) ≤ (subdomainCount url : ℝ) := by
    have : (0 : ℤ) ≤ subdomainCount url := le_max_right _ _
    exact_mod_cast this
  simp only [extract_features, List.mem_cons, List.not_mem_nil, or_false] at hx
  rcases hx with rfl | rfl | rfl | rfl | rfl | rfl | rfl | rfl | rfl | rfl |
    rfl | rfl | rfl | rfl | rfl
  · exact clamp01 (by positivity)
  · exact clamp01 (by positivity)
  · exact clamp01 (by positivity)
  · exact clamp01 (by positivity)
  · exact indicator01 _
  · exact indicator01 _
  · exact clamp01 (div_nonneg (calculate_entropy_nonneg _) (by norm_num))
  · exact clamp01 (div_nonneg (calculate_entropy_nonneg _) (by norm_num))
  · exact clamp01 (by positivity)
  · exact indicator01 _
  · exact clamp01 (by positivity)
  · exact clamp01 (by positivity)
  · exact indicator01 _
  · exact indicator01 _
  · exact indicator01 _

/-! ## Claim C10 -/

/-- Claim C10: each of the binary feature entries at indices 4 (HTTPS),
5 (IPv4 host), 9 (contains `'@'`), 12 (explicit port), 13 (shortener domain)
and 14 (suspicious TLD) is exactly 0.0 or exactly 1.0 for every input
string. -/
theorem binary_features_zero_or_one :
    (∀ url : List Char,
      (extract_features url).getD 4 0 = 0 ∨ (extract_features url).getD 4 0 = 1) ∧
    (∀ url : List Char,
      (extract_features url).getD 5 0 = 0 ∨ (extract_features url).getD 5 0 = 1) ∧
    (∀ url : List Char,
      (extract_features url).getD 9 0 = 0 ∨ (extract_features url).getD 9 0 = 1) ∧
    (∀ url : List Char,
      (extract_features url).getD 12 0 = 0 ∨ (extract_features url).getD 12 0 = 1) ∧
    (∀ url : List Char,
      (extract_features url).getD 13 0 = 0 ∨ (extract_features url).getD 13 0 = 1) ∧
    (∀ url : List Char,
      (extract_features url).getD 14 0 = 0 ∨ (extract_features url).getD 14 0 = 1) := by
  refine ⟨fun url => ?_, fun url => ?_, fun url => ?_, fun url => ?_,
    fun url => ?_, fun url => ?_⟩
  · have h4 : (extract_features url).getD 4 0 = feature4 url := by
      simp [extract_features]
    rw [h4]; unfold feature4; split <;> simp
  · have h5 : (extract_features url).getD 5 0 = feature5 url := by
      simp [extract_features]
    rw [h5]; unfold feature5; split <;> simp
  · have h9 : (extract_features url).getD 9 0 = feature9 url := by
      simp [extract_features]
    rw [h9]; unfold feature9; split <;> simp
  · have h12 : (extract_features url).getD 12 0 = feature12 url := by
      simp [extract_features]
    rw [h12]; unfold feature12; split <;> simp
  · have h13 : (extract_features url).getD 13 0 = feature13 url := by
      simp [extract_features]
    rw [h13]; unfold feature13; split <;> simp
  · have h14 : (extract_features url).getD 14 0 = feature14 url := by
      simp [extract_features]
    rw [h14]; unfold feature14; split <;> simp

/-! ## Claim C7 -/

/-- The dot product of an all-zero vector with anything is zero. -/
lemma dotList_replicate_zero (n : ℕ) (v : List ℝ) :
    dotList (List.replicate n 0) v = 0 := by
  induction n generalizing v with
  | zero => simp [dotList]
  | succ k ih =>
    cases v with
    | nil => simp [dotList]
    | cons a t =>
      simp only [List.replicate_succ, dotList, List.zipWith_cons_cons,
        List.sum_cons, zero_mul, zero_add]
      exact ih t

/-- `sigmoid 0 = 1/2`. -/
lemma sigmoid_zero : sigmoid 0 = 1 / 2 := by
  simp [sigmoid, Real.exp_zero]
  norm_num

/-- Claim C7: `predict` on the model with all-zero weights and zero bias
returns exactly `1/2` (`sigmoid 0`) for every 15-length feature vector.  In
this embedding `predict` is a pure function of the model state, so it cannot
mutate the weights or the bias. -/
theorem predict_zero_model (v : List ℝ) (h : v.length = 15) :
    predict initModel v = 1 / 2 := by
  unfold predict initModel
  simp only [dotList_replicate_zero, zero_add, add_zero]
  exact sigmoid_zero

/-- Witness for C7: the zero vector itself. -/
theorem predict_zero_model_witness :
    predict initModel (List.replicate 15 0) = 1 / 2 :=
  predict_zero_model (List.replicate 15 0) (by simp)

/-! ## Claim C8 -/

/-- Claim C8: `to_json` produces a record with exactly the two fields
`weights` (the model's weight vector, in feature-index order, of length 15
when the model respects the length-15 invariant) and `bias` (the scalar
bias); re-reading the record recovers a model equal to the original. -/
theorem to_json_round_trip (m : LogisticRegressionModel)
    (h : m.weights.length = 15) :
    (to_json m).weights = m.weights ∧ (to_json m).weights.length = 15 ∧
      (to_json m).bias = m.bias ∧ modelOfJson (to_json m) = m := by
  refine ⟨rfl, h, rfl, ?_⟩
  cases m; rfl

/-- Witness for C8: the freshly initialised model. -/
theorem to_json_round_trip_witness :
    (to_json initModel).weights = initModel.weights ∧
      (to_json initModel).weights.length = 15 ∧
      (to_json initModel).bias = initModel.bias ∧
      modelOfJson (to_json initModel) = initModel :=
  to_json_round_trip initModel (by simp [initModel])

/-! ## Claim C9 -/

/-- Claim C9: `fit` requires at least one sample row.  On an empty feature
matrix with at least one epoch the Python code raises (the gradient scale
`1 / n_samples` divides by the sample count 0; in addition `np.array([])` is
one-dimensional, so the `n_samples, n_features = X.shape` unpacking already
fails), so `fit` fails instead of completing: the division inside `fit` is
only safe when there is at least one row. -/
theorem fit_empty_fails (y : List ℝ) (e : ℕ) (lr : ℝ) (he : 1 ≤ e) :
    fit [] y e lr = none := rfl

/-- Witness for C9: zero rows, one epoch. -/
theorem fit_empty_fails_witness : fit [] [] 1 1 = none :=
  fit_empty_fails [] 1 1 (le_refl 1)

/-! ## Claim C5 -/

/-- The distinct characters of a repeated single character. -/
lemma dedup_replicate (c : Char) (n : ℕ) (hn : 1 ≤ n) :
    (List.replicate n c).dedup = [c] := by
  induction n with
  | zero => omega
  | succ k ih =>
    rcases Nat.eq_or_lt_of_le hn with h1 | h1
    · simp [← h1]
    · have hk : 1 ≤ k := by omega
      rw [List.replicate_succ,
        List.dedup_cons_of_mem (by simp [List.mem_replicate]; omega), ih hk]

/-- Claim C5: `calculate_entropy` returns 0 for the empty string, 0 for a
single character repeated `n ≥ 1` times, and exactly `log2 k` for any
non-empty string whose `k` distinct characters each occur equally often
(`m` times each). -/
theorem calculate_entropy_spec :
    calculate_entropy [] = 0 ∧
    (∀ (c : Char) (n : ℕ), 1 ≤ n → calculate_entropy (List.replicate n c) = 0) ∧
    (∀ (s : List Char) (m : ℕ), s ≠ [] → (∀ c ∈ s, s.count c = m) →
      calculate_entropy s = Real.logb 2 (s.dedup.length)) := by
  have main : ∀ (s : List Char) (m : ℕ), s ≠ [] → (∀ c ∈ s, s.count c = m) →
      calculate_entropy s = Real.logb 2 (s.dedup.length) := by
    intro s m hs hm
    have hk : s.dedup ≠ [] := fun h => hs ((List.dedup_eq_nil s).mp h)
    have hkpos : 0 < s.dedup.length := List.length_pos.mpr hk
    obtain ⟨c₀, hc₀⟩ := List.exists_mem_of_ne_nil s hs
    have hm1 : 1 ≤ m := by
      have h1 := List.count_pos_iff.mpr hc₀
      have h2 := hm c₀ hc₀
      omega
    have hlen : s.length = s.dedup.length * m := by
      have h1 := List.sum_map_count_dedup_eq_length s
      have h2 : s.dedup.map (fun x => s.count x) =
          List.replicate s.dedup.length m :=
        List.eq_replicate_iff.mpr ⟨by simp, by
          intro b hb
          simp only [List.mem_map] at hb
          obtain ⟨c, hc, rfl⟩ := hb
          exact hm c (List.mem_dedup.mp hc)⟩
      rw [h2, List.sum_replicate, smul_eq_mul] at h1
      omega
    have hmR : (m : ℝ) ≠ 0 := by positivity
    have hkR : ((s.dedup.length : ℕ) : ℝ) ≠ 0 := by positivity
    have hratio : (m : ℝ) / (s.length : ℝ) = ((s.dedup.length : ℝ))⁻¹ := by
      rw [hlen]
      push_cast
      field_simp
      ring
    have hmap : s.dedup.map (fun c =>
        ((s.count c : ℝ) / (s.length : ℝ)) *
          Real.logb 2 ((s.count c : ℝ) / (s.length : ℝ))) =
        List.replicate s.dedup.length
          (((s.dedup.length : ℝ))⁻¹ *
            Real.logb 2 (((s.dedup.length : ℝ))⁻¹)) :=
      List.eq_replicate_iff.mpr ⟨by simp, by
        intro b hb
        simp only [List.mem_map] at hb
        obtain ⟨c, hc, rfl⟩ := hb
        rw [hm c (List.mem_dedup.mp hc), hratio]⟩
    rw [calculate_entropy_eq, hmap, List.sum_replicate, nsmul_eq_mul,
      Real.logb_inv]
    field_simp
  refine ⟨by simp [calculate_entropy], ?_, main⟩
  intro c n hn
  have h := main (List.replicate n c) n
    (by simp; omega)
    (by
      intro x hx
      rw [List.eq_of_mem_replicate hx]
      simp [List.count_replicate])
  rw [h, dedup_replicate c n hn]
  simp

/-! ## Claim C2 -/

/-- When the pattern occurs nowhere in `s`, a replace pass leaves `s`
unchanged (any fuel). -/
lemma pyReplaceFuel_of_not_occurs (pat rep : List Char) :
    ∀ (fuel : ℕ) (s : List Char), occursIn pat s = false →
      pyReplaceFuel pat rep fuel s = s := by
  intro fuel
  induction fuel with
  | zero => intro s _; rfl
  | succ k ih =>
    intro s hs
    cases s with
    | nil => rfl
    | cons c rest =>
      simp only [occursIn, Bool.or_eq_false_iff] at hs
      simp only [pyReplaceFuel, hs.1, Bool.false_eq_true, if_false]
      rw [ih rest hs.2]

/-- When the pattern occurs nowhere in `s`, Python replace leaves `s`
unchanged. -/
lemma pyReplace_of_not_occurs (s pat rep : List Char)
    (hs : occursIn pat s = false) : pyReplace s pat rep = s := by
  unfold pyReplace
  split
  · rfl
  · exact pyReplaceFuel_of_not_occurs pat rep s.length s hs

/-- The fuel does not matter once it is at least the length of the input. -/
lemma pyReplaceFuel_fuel_irrelevant (pat rep : List Char) (hpat : pat ≠ []) :
    ∀ (f1 f2 : ℕ) (s : List Char), s.length ≤ f1 → s.length ≤ f2 →
      pyReplaceFuel pat rep f1 s = pyReplaceFuel pat rep f2 s := by
  intro f1
  induction f1 with
  | zero =>
    intro f2 s h1 _
    have hs : s = [] := List.length_eq_zero.mp (by omega)
    subst hs
    cases f2 <;> rfl
  | succ a ih =>
    intro f2 s h1 h2
    cases s with
    | nil => cases f2 <;> rfl
    | cons c rest =>
      cases f2 with
      | zero => simp at h2
      | succ b =>
        simp only [pyReplaceFuel]
        split
        · rename_i hpre
          have hlen : ((c :: rest).drop pat.length).length ≤ a := by
            have hp1 : 1 ≤ pat.length := by
              cases pat with
              | nil => exact absurd rfl hpat
              | cons _ _ => simp
            simp only [List.length_drop, List.length_cons] at *
            omega
          have hlen2 : ((c :: rest).drop pat.length).length ≤ b := by
            have hp1 : 1 ≤ pat.length := by
              cases pat with
              | nil => exact absurd rfl hpat
              | cons _ _ => simp
            simp only [List.length_drop, List.length_cons] at *
            omega
          rw [ih b ((c :: rest).drop pat.length) hlen hlen2]
        · have hr1 : rest.length ≤ a := by simp at h1; omega
          have hr2 : rest.length ≤ b := by simp at h2; omega
          rw [ih b rest hr1 hr2]

/-- When the pattern is a prefix, one replace pass emits the replacement and
continues after the matched occurrence. -/
lemma pyReplace_step_at_match (s pat rep : List Char) (hpat : pat ≠ [])
    (hpre : pat.isPrefixOf s = true) :
    pyReplace s pat rep = rep ++ pyReplace (s.drop pat.length) pat rep := by
  cases s with
  | nil =>
    cases pat with
    | nil => exact absurd rfl hpat
    | cons p ps => simp [List.isPrefixOf] at hpre
  | cons c rest =>
    have hp1 : 1 ≤ pat.length := by
      cases pat with
      | nil => exact absurd rfl hpat
      | cons _ _ => simp
    unfold pyReplace
    rw [if_neg hpat, if_neg hpat]
    have hstep : pyReplaceFuel pat rep (c :: rest).length (c :: rest) =
        rep ++ pyReplaceFuel pat rep rest.length ((c :: rest).drop pat.length) := by
      simp only [List.length_cons, pyReplaceFuel, hpre, if_true]
    rw [hstep]
    congr 1
    apply pyReplaceFuel_fuel_irrelevant pat rep hpat
    · simp only [List.length_drop, List.length_cons]; omega
    · exact le_refl _

/-- If `pat` is a Boolean prefix of `s` then `s` is `pat` followed by the
rest. -/
lemma isPrefixOf_append_drop :
    ∀ (pat s : List Char), pat.isPrefixOf s = true →
      pat ++ s.drop pat.length = s := by
  intro pat
  induction pat with
  | nil => intro s _; simp
  | cons p ps ih =>
    intro s hs
    cases s with
    | nil => simp [List.isPrefixOf] at hs
    | cons b bs =>
      simp only [List.isPrefixOf, Bool.and_eq_true, beq_iff_eq] at hs
      obtain ⟨rfl, hrest⟩ := hs
      simp only [List.length_cons, List.cons_append, List.drop_succ_cons]
      rw [ih bs hrest]

/-- An occurrence of `pat` anywhere in a tail is an occurrence in the whole
list. -/
lemma occursIn_drop (pat : List Char) :
    ∀ (k : ℕ) (s : List Char), occursIn pat s = false →
      occursIn pat (s.drop k) = false := by
  intro k
  induction k with
  | zero => intro s hs; simpa using hs
  | succ j ih =>
    intro s hs
    cases s with
    | nil => simpa using hs
    | cons c rest =>
      simp only [occursIn, Bool.or_eq_false_iff] at hs
      simpa using ih rest hs.2

/-- Claim C2 counterexample: the code removes every occurrence of the scheme
literals, not only a leading prefix.  On `"http://a/http://b"` the inner
`"http://"` is removed as well, so `clean_url` differs from the
strip-one-leading-prefix reading of the claim. -/
theorem cleanUrl_counterexample :
    cleanUrlOf ("http://a/http://b".toList) = "a/b".toList ∧
      claimStripScheme ("http://a/http://b".toList) = "a/http://b".toList ∧
      cleanUrlOf ("http://a/http://b".toList) ≠
        claimStripScheme ("http://a/http://b".toList) := by
  refine ⟨by decide, by decide, by decide⟩

/-- Claim C2 (amended): when neither scheme literal occurs anywhere past the
first character of the URL — in particular when the only occurrence is a
leading prefix — `clean_url` equals the result of stripping at most one
leading `"https://"` or `"http://"` prefix, occurrences elsewhere are left
intact (there are none), and stripping one prefix never triggers the other.
In general the code removes every occurrence of `"https://"` and then every
occurrence of `"http://"`. -/
theorem cleanUrl_eq_claimStrip (url : List Char)
    (h1 : occursIn httpsLit (url.drop 1) = false)
    (h2 : occursIn httpLit (url.drop 1) = false) :
    cleanUrlOf url = claimStripScheme url := by
  by_cases hs : httpsLit.isPrefixOf url = true
  · -- url = "https://" ++ r with no further occurrences
    have hr8 : url.drop httpsLit.length = url.drop 8 := by norm_num [httpsLit]
    have hocc1 : occursIn httpsLit (url.drop 8) = false := by
      have : url.drop 8 = (url.drop 1).drop 7 := by
        rw [List.drop_drop]
      rw [this]
      exact occursIn_drop _ 7 _ h1
    have hocc2 : occursIn httpLit (url.drop 8) = false := by
      have : url.drop 8 = (url.drop 1).drop 7 := by
        rw [List.drop_drop]
      rw [this]
      exact occursIn_drop _ 7 _ h2
    unfold cleanUrlOf
    rw [pyReplace_step_at_match url httpsLit [] (by decide) hs, hr8,
      List.nil_append, pyReplace_of_not_occurs _ _ _ hocc1,
      pyReplace_of_not_occurs _ _ _ hocc2]
    unfold claimStripScheme
    rw [if_pos hs, hr8]
  · by_cases ht : httpLit.isPrefixOf url = true
    · -- url = "http://" ++ r
      have hne : url ≠ [] := by
        rintro rfl; simp [httpLit, List.isPrefixOf] at ht
      have hocc_s : occursIn httpsLit url = false := by
        cases url with
        | nil => exact absurd rfl hne
        | cons c rest =>
          simp only [occursIn, Bool.or_eq_false_iff]
          refine ⟨Bool.eq_false_iff.mpr hs, by simpa using h1⟩
      have hr7 : url.drop httpLit.length = url.drop 7 := by norm_num [httpLit]
      have hocc2 : occursIn httpLit (url.drop 7) = false := by
        have : url.drop 7 = (url.drop 1).drop 6 := by
          rw [List.drop_drop]
        rw [this]
        exact occursIn_drop _ 6 _ h2
      unfold cleanUrlOf
      rw [pyReplace_of_not_occurs _ _ _ hocc_s,
        pyReplace_step_at_match url httpLit [] (by decide) ht, hr7,
        List.nil_append, pyReplace_of_not_occurs _ _ _ hocc2]
      unfold claimStripScheme
      rw [if_neg (by simpa using hs), if_pos ht, hr7]
    · -- no scheme prefix at all: both passes are the identity
      have hocc_s : occursIn httpsLit url = false := by
        cases url with
        | nil => decide
        | cons c rest =>
          simp only [occursIn, Bool.or_eq_false_iff]
          refine ⟨Bool.eq_false_iff.mpr hs, by simpa using h1⟩
      have hocc_t : occursIn httpLit url = false := by
        cases url with
        | nil => decide
        | cons c rest =>
          simp only [occursIn, Bool.or_eq_false_iff]
          refine ⟨Bool.eq_false_iff.mpr ht, by simpa using h2⟩
      unfold cleanUrlOf
      rw [pyReplace_of_not_occurs _ _ _ hocc_s,
        pyReplace_of_not_occurs _ _ _ hocc_t]
      unfold claimStripScheme
      rw [if_neg (by simpa using hs), if_neg (by simpa using ht)]

/-- Witness for the amended C2: a URL whose only scheme occurrence is its
leading prefix. -/
theorem cleanUrl_eq_claimStrip_witness :
    cleanUrlOf ("https://example.com/a".toList) =
      claimStripScheme ("https://example.com/a".toList) :=
  cleanUrl_eq_claimStrip ("https://example.com/a".toList) (by decide) (by decide)

/-! ## Claim C6 -/

/-- The first chunk of a Python split is everything before the first
separator. -/
lemma pySplit_headD (c : Char) (l : List Char) :
    (pySplit c l).headD [] = l.takeWhile (fun x => x != c) := by
  induction l with
  | nil => rfl
  | cons a rest ih =>
    simp only [pySplit]
    by_cases hac : a = c
    · subst hac
      simp [List.takeWhile_cons]
    · simp only [if_neg hac, List.headD_cons, List.takeWhile_cons]
      have : (a != c) = true := by simpa using hac
      rw [this, if_pos rfl]
      rw [ih]

/-- Entry 5 of the feature vector is `feature5`. -/
lemma extract_features_getD_5 (url : List Char) :
    (extract_features url).getD 5 0 = feature5 url := by
  simp [extract_features]

/-- Claim C6 counterexample: on `"http://1.2.3.4:1:2"` the code strips
everything from the *first* `':'` and the remaining `"1.2.3.4"` matches the
IPv4 regex, so feature 5 is 1.0; the claim's reading — strip only the part
after the *last* `':'` — leaves `"1.2.3.4:1"`, which does not match, so the
claim predicts 0.0. -/
theorem feature5_counterexample :
    (extract_features ("http://1.2.3.4:1:2".toList)).getD 5 0 = 1 ∧
      pyMatchIPv4 (claimLastColonStripped
        (hostOf ("http://1.2.3.4:1:2".toList))) = false := by
  constructor
  · rw [extract_features_getD_5]
    unfold feature5
    rw [if_pos (by decide)]
  · decide

/-- Claim C6 (amended): feature 5 equals 1.0 exactly when the part of the
host *before the first* `':'` matches the anchored IPv4 regex (per Python
`re.match` semantics, which also accept a single trailing newline before
`$`), and 0.0 otherwise; in particular
`extract("http://192.168.1.1/x")[5] = 1.0` and
`extract("http://example.com")[5] = 0.0`. -/
theorem feature5_first_colon_spec :
    (∀ url : List Char,
      (extract_features url).getD 5 0 =
        if pyMatchIPv4 (claimFirstColonPart (hostOf url)) then 1 else 0) ∧
    (∀ url : List Char,
      ((extract_features url).getD 5 0 = 1 ↔
        pyMatchIPv4 (claimFirstColonPart (hostOf url)) = true)) ∧
    (extract_features ("http://192.168.1.1/x".toList)).getD 5 0 = 1 ∧
    (extract_features ("http://example.com".toList)).getD 5 0 = 0 := by
  have hmain : ∀ url : List Char,
      (extract_features url).getD 5 0 =
        if pyMatchIPv4 (claimFirstColonPart (hostOf url)) then 1 else 0 := by
    intro url
    rw [extract_features_getD_5]
    unfold feature5 isIPHost ipCandidate
    rw [pySplit_headD]
    unfold claimFirstColonPart
    rfl
  refine ⟨hmain, ?_, ?_, ?_⟩
  · intro url
    rw [hmain url]
    constructor
    · intro h
      by_contra hb
      rw [if_neg hb] at h
      exact zero_ne_one h
    · intro h
      rw [if_pos h]
  · rw [extract_features_getD_5]
    unfold feature5
    rw [if_pos (by decide)]
  · rw [extract_features_getD_5]
    unfold feature5
    rw [if_neg (by decide)]

/-! ## Claims C3, C4: the training loop -/

/-- A list sum as a sum over indices. -/
lemma list_sum_getD (l : List ℝ) :
    l.sum = ∑ i in Finset.range l.length, l.getD i 0 := by
  induction l with
  | nil => simp
  | cons a t ih =>
    rw [List.sum_cons, List.length_cons, Finset.sum_range_succ']
    simp only [List.getD_cons_succ, List.getD_cons_zero]
    rw [← ih]
    ring

/-- The zipped column/error product sum as a sum over row indices: the `j`-th
entry of `np.dot(X.T, err)`. -/
lemma zip_map_sum (A : List (List ℝ)) (e : List ℝ) (j : ℕ)
    (h : A.length = e.length) :
    ((A.zip e).map (fun p => p.1.getD j 0 * p.2)).sum =
      ∑ i in Finset.range A.length, (A.getD i []).getD j 0 * e.getD i 0 := by
  induction A generalizing e with
  | nil => simp
  | cons r t ih =>
    cases e with
    | nil => simp at h
    | cons z zs =>
      simp only [List.zip_cons_cons, List.map_cons, List.sum_cons,
        List.length_cons]
      rw [Finset.sum_range_succ']
      simp only [List.getD_cons_succ, List.getD_cons_zero]
      rw [ih zs (by simpa using h)]
      ring

/-- `np.dot` of equal-length vectors as a sum over indices. -/
lemma dotList_eq_sum (a : List ℝ) :
    ∀ b : List ℝ, dotList a b =
      ∑ j in Finset.range (min a.length b.length), a.getD j 0 * b.getD j 0 := by
  induction a with
  | nil => intro b; simp [dotList]
  | cons x xs ih =>
    intro b
    cases b with
    | nil => simp [dotList]
    | cons z zs =>
      simp only [dotList, List.zipWith_cons_cons, List.sum_cons,
        List.length_cons, Nat.succ_min_succ]
      rw [Finset.sum_range_succ']
      simp only [List.getD_cons_succ, List.getD_cons_zero]
      have hxs : (List.zipWith (fun x y => x * y) xs zs).sum = dotList xs zs := rfl
      rw [hxs, ih zs]
      ring

/-- The spec-side step always produces a 15-entry weight vector. -/
lemma specStep_fst_length (X : List (List ℝ)) (y : List ℝ) (lr : ℝ)
    (wb : List ℝ × ℝ) : (specStep X y lr wb).1.length = 15 := by
  simp [specStep]

/-- One epoch of the implementation agrees with the spec-side step on
well-formed data. -/
lemma fitStep_eq_specStep (X : List (List ℝ)) (y : List ℝ) (lr : ℝ)
    (wb : List ℝ × ℝ) (hX : X ≠ []) (hrect : ∀ row ∈ X, row.length = 15)
    (hy : y.length = X.length) (hw : wb.1.length = 15) :
    fitStep X y lr wb = some (specStep X y lr wb) := by
  have hnf : (X.headD []).length = 15 := by
    cases X with
    | nil => exact absurd rfl hX
    | cons r t => exact hrect r (List.mem_cons_self r t)
  have hpl : (X.map (fun row => sigmoid (dotList row wb.1 + wb.2))).length
      = y.length := by simp [hy]
  have hsub : npSub (X.map (fun row => sigmoid (dotList row wb.1 + wb.2))) y =
      some (List.zipWith (fun a b => a - b)
        (X.map (fun row => sigmoid (dotList row wb.1 + wb.2))) y) := by
    unfold npSub
    rw [if_pos hpl]
  have herrlen : (List.zipWith (fun a b => a - b)
      (X.map (fun row => sigmoid (dotList row wb.1 + wb.2))) y).length
      = X.length := by simp [hy]
  have herr : ∀ i, i < X.length →
      (List.zipWith (fun a b => a - b)
        (X.map (fun row => sigmoid (dotList row wb.1 + wb.2))) y).getD i 0 =
      sigmoid ((∑ j in Finset.range 15,
        (X.getD i []).getD j 0 * wb.1.getD j 0) + wb.2) - y.getD i 0 := by
    intro i hi
    have hi2 : i < (List.zipWith (fun a b => a - b)
        (X.map (fun row => sigmoid (dotList row wb.1 + wb.2))) y).length := by
      rw [herrlen]; exact hi
    have hiX : i < X.length := hi
    have hiy : i < y.length := by omega
    have him : i < (X.map (fun row => sigmoid (dotList row wb.1 + wb.2))).length := by
      simpa using hiX
    rw [List.getD_eq_getElem _ 0 hi2, List.getElem_zipWith,
      List.getElem_map]
    have hXi : X[i] = X.getD i [] := (List.getD_eq_getElem X [] hiX).symm
    have hyi : y[i] = y.getD i 0 := (List.getD_eq_getElem y 0 hiy).symm
    have hrow : (X[i]).length = 15 := hrect X[i] (List.getElem_mem hiX)
    have hdot : dotList X[i] wb.1 =
        ∑ j in Finset.range 15, (X.getD i []).getD j 0 * wb.1.getD j 0 := by
      rw [dotList_eq_sum, hrow, hw, hXi]
      norm_num
    rw [hdot, hyi]
  simp only [fitStep]
  rw [hsub]
  dsimp only
  have hif : (List.zipWith (fun a b => a - b)
      (X.map (fun row => sigmoid (dotList row wb.1 + wb.2))) y).length
      = X.length ∧ wb.1.length = (X.headD []).length := ⟨herrlen, by rw [hw, hnf]⟩
  rw [if_pos hif]
  have hnf2 : (X.head?.getD []).length = 15 := by
    cases X with
    | nil => exact absurd rfl hX
    | cons r t => simpa using hrect r (List.mem_cons_self r t)
  unfold specStep
  simp only [Option.some.injEq, Prod.mk.injEq]
  have hsum2 : (List.zipWith (fun a b => a - b)
      (List.map (fun row => sigmoid (dotList row wb.1 + wb.2)) X) y).sum =
      ∑ i in Finset.range X.length,
        (sigmoid ((∑ j in Finset.range 15,
          (X.getD i []).getD j 0 * wb.1.getD j 0) + wb.2) - y.getD i 0) := by
    rw [list_sum_getD, herrlen]
    exact Finset.sum_congr rfl (fun i hi => herr i (Finset.mem_range.mp hi))
  constructor
  · -- the weight update lists agree entrywise
    apply List.ext_getElem
    · rw [List.length_zipWith, hw, List.length_map, List.length_range, hnf]
      rw [List.length_map, List.length_range]
      simp
    · intro j h1 h2
      have hj15 : j < 15 := by
        simp only [List.length_map, List.length_range] at h2
        exact h2
      rw [List.getElem_zipWith, List.getElem_map, List.getElem_map,
        List.getElem_range, List.getElem_range]
      rw [zip_map_sum _ _ _ (by rw [herrlen])]
      have hjw : j < wb.1.length := by omega
      have hsum : ∑ i in Finset.range X.length,
          (X.getD i []).getD j 0 *
            (List.zipWith (fun a b => a - b)
              (List.map (fun row => sigmoid (dotList row wb.1 + wb.2)) X) y).getD i 0 =
          ∑ i in Finset.range X.length,
            (X.getD i []).getD j 0 *
              (sigmoid ((∑ j in Finset.range 15,
                (X.getD i []).getD j 0 * wb.1.getD j 0) + wb.2) - y.getD i 0) := by
        apply Finset.sum_congr rfl
        intro i hi
        rw [herr i (Finset.mem_range.mp hi)]
      rw [hsum]
      rw [List.getD_eq_getElem wb.1 0 hjw]
  · -- the bias updates agree
    rw [hsum2]

/-- The epoch loop agrees with iterating the spec-side step. -/
lemma fitLoop_eq_iterate (X : List (List ℝ)) (y : List ℝ) (lr : ℝ)
    (hX : X ≠ []) (hrect : ∀ row ∈ X, row.length = 15)
    (hy : y.length = X.length) :
    ∀ (e : ℕ) (wb : List ℝ × ℝ), wb.1.length = 15 →
      fitLoop X y lr e wb = some ((specStep X y lr)^[e] wb) := by
  intro e
  induction e with
  | zero => intro wb _; simp [fitLoop]
  | succ k ih =>
    intro wb hw
    simp only [fitLoop]
    rw [fitStep_eq_specStep X y lr wb hX hrect hy hw]
    dsimp only
    rw [ih (specStep X y lr wb) (specStep_fst_length X y lr wb)]
    rw [Function.iterate_succ_apply]

/-- Claim C4: on an `n × 15` feature matrix with matching labels, `fit`
resets the weights to fifteen zeros and the bias to zero and then performs
exactly `e` iterations of the full-batch gradient-descent step of the spec
(`z = X·w + b`, `predictions = sigmoid z`, `error = predictions - labels`,
`dw = (1/n)·Xᵀ·error`, `db = (1/n)·Σ error`, `w -= lr·dw`, `b -= lr·db`);
there is no convergence check, early stopping or shuffling — the result is
literally the `e`-fold iterate of the step. -/
theorem fit_eq_specFit (X : List (List ℝ)) (y : List ℝ) (e : ℕ) (lr : ℝ)
    (hX : X ≠ []) (hrect : ∀ row ∈ X, row.length = 15)
    (hy : y.length = X.length) :
    fit X y e lr = some (specFit X y e lr) := by
  cases X with
  | nil => exact absurd rfl hX
  | cons r t =>
    have hr : r.length = 15 := hrect r (List.mem_cons_self r t)
    unfold fit
    dsimp only
    rw [if_pos (List.all_eq_true.mpr fun row hrow =>
      beq_iff_eq.mpr ((hrect row hrow).trans hr.symm))]
    rw [hr]
    unfold specFit
    exact fitLoop_eq_iterate (r :: t) y lr (by simp) hrect hy e
      (List.replicate 15 0, 0) (by simp)

/-- Witness for C4: one sample, one epoch. -/
theorem fit_eq_specFit_witness :
    fit [List.replicate 15 0] [0] 1 1 =
      some (specFit [List.replicate 15 0] [0] 1 1) :=
  fit_eq_specFit [List.replicate 15 0] [0] 1 1 (by simp)
    (by
      intro row hrow
      rw [List.mem_singleton] at hrow
      rw [hrow]
      simp)
    (by simp)

/-- One epoch step succeeds whenever the labels match the row count and the
weight vector matches the column count — whatever that column count is. -/
lemma fitStep_some_width (X : List (List ℝ)) (y : List ℝ) (lr : ℝ)
    (wb : List ℝ × ℝ) (hy : y.length = X.length)
    (hw : wb.1.length = (X.headD []).length) :
    ∃ wb', fitStep X y lr wb = some wb' ∧
      wb'.1.length = (X.headD []).length := by
  have hpl : (X.map (fun row => sigmoid (dotList row wb.1 + wb.2))).length
      = y.length := by simp [hy]
  have hsub : npSub (X.map (fun row => sigmoid (dotList row wb.1 + wb.2))) y =
      some (List.zipWith (fun a b => a - b)
        (X.map (fun row => sigmoid (dotList row wb.1 + wb.2))) y) := by
    unfold npSub
    rw [if_pos hpl]
  simp only [fitStep]
  rw [hsub]
  dsimp only
  rw [if_pos ⟨by simp [hy], hw⟩]
  refine ⟨_, rfl, ?_⟩
  simp [hw]

/-- The epoch loop succeeds for any column count, preserving the weight
length. -/
lemma fitLoop_some_width (X : List (List ℝ)) (y : List ℝ) (lr : ℝ)
    (hy : y.length = X.length) :
    ∀ (e : ℕ) (wb : List ℝ × ℝ), wb.1.length = (X.headD []).length →
      ∃ wb', fitLoop X y lr e wb = some wb' ∧
        wb'.1.length = (X.headD []).length := by
  intro e
  induction e with
  | zero => intro wb hw; exact ⟨wb, rfl, hw⟩
  | succ k ih =>
    intro wb hw
    obtain ⟨wb1, hstep, hlen1⟩ := fitStep_some_width X y lr wb hy hw
    obtain ⟨wb2, hloop, hlen2⟩ := ih wb1 hlen1
    refine ⟨wb2, ?_, hlen2⟩
    simp only [fitLoop]
    rw [hstep]
    exact hloop

/-- Claim C3 counterexample: `fit` does not fail fast on dimension
mismatches.  A 2-by-3 feature matrix (every row length 3, not 15) with two
labels trains without any error; and a 2-row matrix with a single label also
completes, because numpy broadcasts the length-1 label vector instead of
rejecting the row/label mismatch. -/
theorem fit_dimension_counterexample :
    (fit [[1, 1, 1], [0, 0, 0]] [1, 0] 1 1).isSome = true ∧
      (fit [[0, 0, 0], [1, 1, 1]] [0] 1 1).isSome = true := by
  constructor
  · have h := fitLoop_some_width [[1, 1, 1], [0, 0, 0]] [1, 0] 1 (by simp)
      1 (List.replicate 3 0, 0) (by simp)
    obtain ⟨wb, hwb, _⟩ := h
    unfold fit
    dsimp only
    rw [if_pos (by decide)]
    rw [show (([1, 1, 1] : List ℝ)).length = 3 from by simp]
    rw [hwb]
    rfl
  · have hsub : npSub (([[0, 0, 0], [1, 1, 1]] : List (List ℝ)).map
        (fun row => sigmoid (dotList row (List.replicate 3 0) + 0))) [0] =
        some ((([[0, 0, 0], [1, 1, 1]] : List (List ℝ)).map
          (fun row => sigmoid (dotList row (List.replicate 3 0) + 0))).map
          (fun x => x - ([(0 : ℝ)]).headD 0)) := by
      unfold npSub
      rw [if_neg (by simp), if_pos (by simp)]
    unfold fit
    dsimp only
    rw [if_pos (by decide)]
    simp only [fitLoop, fitStep]
    rw [show (([0, 0, 0] : List ℝ)).length = 3 from by simp]
    rw [hsub]
    dsimp only
    rw [if_pos ⟨by simp, by simp⟩]
    rfl

/-- Claim C3 (amended): `fit` performs no dimension validation at all.  It
adapts to whatever column count the matrix has — any rectangular non-empty
matrix with matching label count trains successfully, producing a weight
vector of the matrix's width rather than 15 — and a row/label mismatch is
not checked either: with a single label the subtraction broadcasts and `fit`
completes (second conjunct). -/
theorem fit_adapts_to_width :
    (∀ (X : List (List ℝ)) (y : List ℝ) (e : ℕ) (lr : ℝ) (r : List ℝ)
      (t : List (List ℝ)), X = r :: t → (∀ row ∈ X, row.length = r.length) →
      y.length = X.length →
      ∃ wb, fit X y e lr = some wb ∧ wb.1.length = r.length) ∧
    (fit [[0, 0, 0], [1, 1, 1]] [0] 1 1).isSome = true := by
  constructor
  · intro X y e lr r t hXrt hrect hy
    subst hXrt
    have hhead : ((r :: t).headD []) = r := rfl
    obtain ⟨wb, hwb, hlen⟩ := fitLoop_some_width (r :: t) y lr hy e
      (List.replicate r.length 0, 0) (by simp [hhead])
    refine ⟨wb, ?_, by rw [hlen, hhead]⟩
    unfold fit
    dsimp only
    rw [if_pos (List.all_eq_true.mpr fun row hrow =>
      beq_iff_eq.mpr (hrect row hrow))]
    exact hwb
  · have hsub : npSub (([[0, 0, 0], [1, 1, 1]] : List (List ℝ)).map
        (fun row => sigmoid (dotList row (List.replicate 3 0) + 0))) [0] =
        some ((([[0, 0, 0], [1, 1, 1]] : List (List ℝ)).map
          (fun row => sigmoid (dotList row (List.replicate 3 0) + 0))).map
          (fun x => x - ([(0 : ℝ)]).headD 0)) := by
      unfold npSub
      rw [if_neg (by simp), if_pos (by simp)]
    unfold fit
    dsimp only
    rw [if_pos (by decide)]
    simp only [fitLoop, fitStep]
    rw [show (([0, 0, 0] : List ℝ)).length = 3 from by simp]
    rw [hsub]
    dsimp only
    rw [if_pos ⟨by simp, by simp⟩]
    rfl

end GenerateModel
